import Mathlib

/-!
Verification development for the Chordonomicon build pipeline
(`src/scripts/chordonomicon/build_chordonomicon_json.py`).

Strings are embedded as `List Char`; Python string operations used by the
script (`str.strip`, `str.split`, `str.replace`, slicing, `in`,
`startswith`) are embedded as executable functions on `List Char` that
mirror CPython's semantics on the inputs the script feeds them.
-/

/-- Convert a Lean string literal to the `List Char` representation. -/
def str (s : String) : List Char := s.data

/-- Python `str.isspace` characters relevant to `str.strip()` / `str.split()`
(ASCII whitespace: space, tab, LF, CR, VT, FF). -/
def pyIsSpace (c : Char) : Bool :=
  c.toNat = 32 || c.toNat = 9 || c.toNat = 10 || c.toNat = 13 ||
  c.toNat = 11 || c.toNat = 12

/-- Python `str.strip()`: remove leading and trailing whitespace. -/
def pyStrip (s : List Char) : List Char :=
  ((s.dropWhile pyIsSpace).reverse.dropWhile pyIsSpace).reverse

/-- Worker for `pySplit`: accumulates the current word (reversed). -/
def pySplitGo (cur : List Char) : List Char → List (List Char)
  | [] => if cur = [] then [] else [cur.reverse]
  | c :: cs =>
    if pyIsSpace c then
      if cur = [] then pySplitGo [] cs else cur.reverse :: pySplitGo [] cs
    else pySplitGo (c :: cur) cs

/-- Python `str.split()` with no argument: split on whitespace runs,
discarding empty fields. -/
def pySplit (s : List Char) : List (List Char) := pySplitGo [] s

/-- Boolean prefix test on character lists (Python `str.startswith`). -/
def isPre : List Char → List Char → Bool
  | [], _ => true
  | _ :: _, [] => false
  | a :: as, b :: bs => decide (a = b) && isPre as bs

/-- Boolean substring test (Python `needle in haystack`). -/
def hasSub (p : List Char) : List Char → Bool
  | [] => p.isEmpty
  | c :: cs => isPre p (c :: cs) || hasSub p cs

/-- Fueled worker for Python `str.replace`: scan left to right; at a match
emit the replacement and skip past the matched occurrence. The fuel is an
upper bound on the scan length (the wrapper passes the input length). -/
def pyReplaceF (p r : List Char) : Nat → List Char → List Char
  | _, [] => []
  | 0, s => s
  | fuel + 1, c :: cs =>
    if p ≠ [] ∧ isPre p (c :: cs) then
      r ++ pyReplaceF p r fuel ((c :: cs).drop p.length)
    else
      c :: pyReplaceF p r fuel cs

/-- Python `s.replace(p, r)` for a non-empty pattern `p`. -/
def pyReplace (p r s : List Char) : List Char := pyReplaceF p r s.length s

/-- Split at the first occurrence of `sep` (Python `s.split(sep, 1)` when
`sep in s`); `none` when `sep` does not occur. -/
def splitFirst (sep : Char) : List Char → Option (List Char × List Char)
  | [] => none
  | c :: cs =>
    if c = sep then some ([], cs)
    else
      match splitFirst sep cs with
      | none => none
      | some p => some (c :: p.1, p.2)

/-- Python `str.upper()` on the ASCII section names the script produces. -/
def listUpper (s : List Char) : List Char := s.map Char.toUpper

-- ------------ CONFIG constants of the script ------------

/-- `MAX_UNIQUE_CHORDS = 8`. -/
def MAX_UNIQUE_CHORDS : Nat := 8

/-- `MAX_RETRIES = 3`. -/
def MAX_RETRIES : Nat := 3

/-- `BASE_RETRY_DELAY = 5` (seconds). -/
def BASE_RETRY_DELAY : Int := 5

-- ------------ CHORD NORMALIZATION ------------

/-- The seven natural note letters iterated by `fix_sharps`. -/
def NOTE_LETTERS : List Char := ['A', 'B', 'C', 'D', 'E', 'F', 'G']

/-- `fix_sharps`: for each natural note letter, replace `<letter>s` with
`<letter>#`, in order A..G (sequential `str.replace` calls). -/
def fix_sharps (s : List Char) : List Char :=
  NOTE_LETTERS.foldl (fun acc n => pyReplace [n, 's'] [n, '#'] acc) s

/-- Regex class `[A-G]` applied to one character. -/
def isNoteLetter (c : Char) : Bool :=
  65 ≤ c.toNat && c.toNat ≤ 71

/-- Regex class `[A-Za-z0-9#/b]` applied to one character
(`b` is already covered by `a-z`; `#` is 35, `/` is 47). -/
def allowedChar (c : Char) : Bool :=
  (65 ≤ c.toNat && c.toNat ≤ 90) || (97 ≤ c.toNat && c.toNat ≤ 122) ||
  (48 ≤ c.toNat && c.toNat ≤ 57) || c.toNat = 35 || c.toNat = 47

/-- `re.match(r"^[A-G]", s)` viewed as a Bool. -/
def reMatchNote (s : List Char) : Bool :=
  match s.head? with
  | some c => isNoteLetter c
  | none => false

/-- `re.match(r"^[A-G][A-Za-z0-9#/b]*$", s)` viewed as a Bool. -/
def reMatchGrammar (s : List Char) : Bool :=
  match s with
  | [] => false
  | c :: rest => isNoteLetter c && rest.all allowedChar

/-- The sharp-respelling step of `normalize_chord_symbol`: if a `'/'` is
present, split once and apply `fix_sharps` to root and bass separately,
rejoining with `'/'`; otherwise apply `fix_sharps` to the whole token. -/
def applySharps (symbol1 : List Char) : List Char :=
  match splitFirst '/' symbol1 with
  | some rb => fix_sharps rb.1 ++ '/' :: fix_sharps rb.2
  | none => fix_sharps symbol1

/-- The final regex gate of `normalize_chord_symbol`: reject unless the
token starts with A-G and matches the canonical grammar. -/
def gramGate (symbol2 : List Char) : Option (List Char) :=
  if reMatchNote symbol2 = false then none
  else if reMatchGrammar symbol2 = false then none
  else some symbol2

/-- `normalize_chord_symbol` from the script: strip; reject empty, `"N"`,
and bracketed section markers; replace `"min"` by `"m"`; respell sharps on
root and (if a slash is present) bass; finally validate against the two
regexes, returning `none` on rejection. -/
def normalize_chord_symbol (symbol0 : List Char) : Option (List Char) :=
  let symbol := pyStrip symbol0
  if symbol = [] then none
  else if symbol = str "N" then none
  else if symbol.head? = some '<' ∧ symbol.getLast? = some '>' then none
  else gramGate (applySharps (pyReplace (str "min") (str "m") symbol))

-- ------------ SECTION PARSING ------------

/-- One parsed section: `{"name": ..., "progression": [...]}`. -/
structure PySection where
  name : List Char
  progression : List (List Char)
deriving DecidableEq, Repr

/-- Result of `parse_sections_and_chords`. -/
structure ParsedProgression where
  sections : List PySection
  unique_chords : List (List Char)
deriving DecidableEq, Repr

/-- `tok.startswith("<") and tok.endswith(">")`. -/
def isMarkerTok (t : List Char) : Bool :=
  decide (t.head? = some '<') && decide (t.getLast? = some '>')

/-- Flush the accumulated progression into the section list (the
`if current_progression: sections.append(...)` step, which also applies
`current_name.upper()`). -/
def flushSection (secs : List PySection) (name : List Char)
    (prog : List (List Char)) : List PySection :=
  if prog = [] then secs else secs ++ [⟨listUpper name, prog⟩]

/-- Lexicographic order on code points, as Python string `<` on the
(ASCII) chord symbols the script sorts. -/
def lexLt : List Char → List Char → Bool
  | [], [] => false
  | [], _ :: _ => true
  | _ :: _, [] => false
  | a :: as, b :: bs =>
    if a.toNat < b.toNat then true
    else if a = b then lexLt as bs else false

/-- Insert into a sorted duplicate-free list. -/
def insSortedU (x : List Char) : List (List Char) → List (List Char)
  | [] => [x]
  | y :: ys =>
    if lexLt x y then x :: y :: ys
    else if x = y then y :: ys
    else y :: insSortedU x ys

/-- `sorted({...})` in Python: sorted list of the distinct elements. -/
def sortedUnique (l : List (List Char)) : List (List Char) :=
  l.foldr insSortedU []

/-- The token loop of `parse_sections_and_chords`: state is the flushed
sections, the current section name, and the accumulated progression. -/
def parseTokens (secs : List PySection) (name : List Char)
    (prog : List (List Char)) : List (List Char) → Option (List PySection)
  | [] =>
    let secs2 := flushSection secs name prog
    if secs2 = [] then none else some secs2
  | t :: ts =>
    if isMarkerTok t then
      let secs2 := flushSection secs name prog
      let inner := (t.drop 1).dropLast
      let base :=
        if inner.any (fun c => c = '_') then inner.takeWhile (fun c => c ≠ '_')
        else inner
      parseTokens secs2 (listUpper base) [] ts
    else
      match normalize_chord_symbol t with
      | none => none
      | some n => parseTokens secs name (prog ++ [n]) ts

/-- `parse_sections_and_chords` from the script. -/
def parse_sections_and_chords (chords_str : List Char) :
    Option ParsedProgression :=
  match parseTokens [] (str "GLOBAL") [] (pySplit chords_str) with
  | none => none
  | some secs =>
    some ⟨secs, sortedUnique (secs.foldr (fun sec acc => sec.progression ++ acc) [])⟩

/-- The difficulty heuristic of `build_song_object`:
`<= 4 -> 1`, `<= 6 -> 2`, else `3`. -/
def difficultyOf (uniqueCount : Nat) : Nat :=
  if uniqueCount ≤ 4 then 1
  else if uniqueCount ≤ 6 then 2
  else 3

-- ------------ Lemmas about the string primitives ------------

/-- Prefix test for a two-character pattern, unfolded. -/
lemma isPre_pair_iff (u v c : Char) (cs : List Char) :
    isPre [u, v] (c :: cs) = true ↔ (c = u ∧ cs.head? = some v) := by
  cases cs with
  | nil => simp [isPre]
  | cons d ds =>
    simp only [isPre, Bool.and_eq_true, decide_eq_true_eq, List.head?_cons,
      Option.some.injEq]
    constructor
    · rintro ⟨h1, h2, _⟩
      exact ⟨h1.symm, h2.symm⟩
    · rintro ⟨h1, h2⟩
      exact ⟨h1.symm, h2.symm, trivial⟩

/-- Occurrence of a two-character pattern in a cons, unfolded. -/
lemma hasSub_pair_cons (u v c : Char) (cs : List Char) :
    hasSub [u, v] (c :: cs) = true ↔
      ((c = u ∧ cs.head? = some v) ∨ hasSub [u, v] cs = true) := by
  simp [hasSub, isPre_pair_iff]

/-- Absence of a two-character pattern in a cons, unfolded. -/
lemma hasSub_pair_cons_false (u v c : Char) (cs : List Char) :
    hasSub [u, v] (c :: cs) = false ↔
      (¬(c = u ∧ cs.head? = some v) ∧ hasSub [u, v] cs = false) := by
  rw [← Bool.not_eq_true, hasSub_pair_cons, ← Bool.not_eq_true]
  tauto

lemma hasSub_cons_false (p : List Char) (c : Char) (cs : List Char) :
    hasSub p (c :: cs) = false ↔
      (isPre p (c :: cs) = false ∧ hasSub p cs = false) := by
  simp [hasSub]

/-- A two-character occurrence in the left part survives an append. -/
lemma hasSub_pair_append_left (u v : Char) (l1 l2 : List Char)
    (h : hasSub [u, v] l1 = true) : hasSub [u, v] (l1 ++ l2) = true := by
  induction l1 with
  | nil => simp [hasSub] at h
  | cons c cs ih =>
    rw [List.cons_append, hasSub_pair_cons]
    rcases (hasSub_pair_cons u v c cs).mp h with ⟨hc, hh⟩ | hrec
    · left
      refine ⟨hc, ?_⟩
      cases cs with
      | nil => simp at hh
      | cons d ds => simpa using hh
    · exact Or.inr (ih hrec)

/-- A two-character occurrence in the right part survives an append. -/
lemma hasSub_pair_append_right (u v : Char) (l1 l2 : List Char)
    (h : hasSub [u, v] l2 = true) : hasSub [u, v] (l1 ++ l2) = true := by
  induction l1 with
  | nil => simpa using h
  | cons c cs ih =>
    rw [List.cons_append, hasSub_pair_cons]
    exact Or.inr ih

/-- A two-character occurrence in an append is in one part or spans the
boundary. -/
lemma hasSub_pair_append_split (u v : Char) (l1 l2 : List Char)
    (h : hasSub [u, v] (l1 ++ l2) = true) :
    hasSub [u, v] l1 = true ∨ hasSub [u, v] l2 = true ∨
      (l1.getLast? = some u ∧ l2.head? = some v) := by
  induction l1 with
  | nil => exact Or.inr (Or.inl (by simpa using h))
  | cons c cs ih =>
    rw [List.cons_append, hasSub_pair_cons] at h
    rcases h with ⟨hc, hh⟩ | hrec
    · cases cs with
      | nil =>
        refine Or.inr (Or.inr ⟨?_, by simpa using hh⟩)
        simp [hc]
      | cons d ds =>
        refine Or.inl ((hasSub_pair_cons u v c (d :: ds)).mpr (Or.inl ⟨hc, ?_⟩))
        simpa using hh
    · rcases ih hrec with h1 | h2 | ⟨hl, hr⟩
      · exact Or.inl ((hasSub_pair_cons u v c cs).mpr (Or.inr h1))
      · exact Or.inr (Or.inl h2)
      · refine Or.inr (Or.inr ⟨?_, hr⟩)
        cases cs with
        | nil => simp at hl
        | cons d ds => rw [List.getLast?_cons_cons]; exact hl

/-- The head of a sharp-respelling pass is the note letter or the original
head. -/
lemma pyReplaceF_sharp_head (x z : Char) :
    ∀ (fuel : Nat) (s : List Char),
      (pyReplaceF [x, 's'] [x, '#'] fuel s).head? = some z →
      z = x ∨ s.head? = some z := by
  intro fuel
  induction fuel with
  | zero =>
    intro s h
    cases s with
    | nil => simp [pyReplaceF] at h
    | cons c cs => exact Or.inr h
  | succ n ih =>
    intro s h
    cases s with
    | nil => simp [pyReplaceF] at h
    | cons c cs =>
      by_cases hg : ([x, 's'] ≠ [] ∧ isPre [x, 's'] (c :: cs) = true)
      · rw [pyReplaceF, if_pos hg] at h
        simp only [List.cons_append, List.nil_append, List.head?_cons,
          Option.some.injEq] at h
        exact Or.inl h.symm
      · rw [pyReplaceF, if_neg hg] at h
        exact Or.inr h

/-- A sharp-respelling pass leaves no occurrence of its own pattern. -/
lemma pyReplaceF_sharp_self (x : Char) (hxs : x ≠ 's') (hxh : x ≠ '#') :
    ∀ (fuel : Nat) (s : List Char), s.length ≤ fuel →
      hasSub [x, 's'] (pyReplaceF [x, 's'] [x, '#'] fuel s) = false := by
  intro fuel
  induction fuel with
  | zero =>
    intro s hlen
    have : s = [] := List.eq_nil_of_length_eq_zero (Nat.le_zero.mp hlen)
    subst this
    simp [pyReplaceF, hasSub]
  | succ n ih =>
    intro s hlen
    cases s with
    | nil => simp [pyReplaceF, hasSub]
    | cons c cs =>
      by_cases hg : ([x, 's'] ≠ [] ∧ isPre [x, 's'] (c :: cs) = true)
      · rw [pyReplaceF, if_pos hg]
        obtain ⟨hcx, hhd⟩ := (isPre_pair_iff x 's' c cs).mp hg.2
        cases cs with
        | nil => simp at hhd
        | cons d ds =>
          simp only [List.head?_cons, Option.some.injEq] at hhd
          subst hhd
          simp only [List.length_cons] at hlen
          simp only [List.drop, List.cons_append, List.nil_append]
          rw [hasSub_pair_cons_false, hasSub_pair_cons_false]
          refine ⟨?_, ?_, ih ds (by omega)⟩
          · rintro ⟨-, hh⟩
            simp only [List.head?_cons, Option.some.injEq] at hh
            exact absurd hh.symm (by decide)
          · rintro ⟨hh, -⟩
            exact hxh hh.symm
      · rw [pyReplaceF, if_neg hg]
        simp only [List.length_cons] at hlen
        rw [hasSub_pair_cons_false]
        refine ⟨?_, ih cs (by omega)⟩
        rintro ⟨hcx, hhd⟩
        rcases pyReplaceF_sharp_head x 's' n cs hhd with h1 | h2
        · exact hxs h1.symm
        · exact hg ⟨by simp, (isPre_pair_iff x 's' c cs).mpr ⟨hcx, h2⟩⟩

/-- A sharp-respelling pass for note `x` creates no occurrence of a
pattern `[y, 's']` that was absent before. -/
lemma pyReplaceF_sharp_other (x y : Char) (hxs : x ≠ 's') (hy : y ≠ '#') :
    ∀ (fuel : Nat) (s : List Char),
      hasSub [y, 's'] s = false →
      hasSub [y, 's'] (pyReplaceF [x, 's'] [x, '#'] fuel s) = false := by
  intro fuel
  induction fuel with
  | zero =>
    intro s h
    cases s with
    | nil => simpa [pyReplaceF] using h
    | cons c cs => exact h
  | succ n ih =>
    intro s h
    cases s with
    | nil => simpa [pyReplaceF] using h
    | cons c cs =>
      by_cases hg : ([x, 's'] ≠ [] ∧ isPre [x, 's'] (c :: cs) = true)
      · rw [pyReplaceF, if_pos hg]
        obtain ⟨hcx, hhd⟩ := (isPre_pair_iff x 's' c cs).mp hg.2
        cases cs with
        | nil => simp at hhd
        | cons d ds =>
          simp only [List.head?_cons, Option.some.injEq] at hhd
          subst hhd
          subst hcx
          rw [hasSub_pair_cons_false] at h
          obtain ⟨hpair1, h2⟩ := h
          rw [hasSub_pair_cons_false] at h2
          obtain ⟨hpair2, h3⟩ := h2
          simp only [List.drop, List.cons_append, List.nil_append]
          rw [hasSub_pair_cons_false, hasSub_pair_cons_false]
          refine ⟨?_, ?_, ih ds h3⟩
          · rintro ⟨hcy, -⟩
            exact hpair1 ⟨hcy, by simp⟩
          · rintro ⟨hh, -⟩
            exact hy hh.symm
      · rw [pyReplaceF, if_neg hg]
        rw [hasSub_pair_cons_false] at h
        obtain ⟨hpair, hrec⟩ := h
        rw [hasSub_pair_cons_false]
        refine ⟨?_, ih cs hrec⟩
        rintro ⟨hcy, hhd⟩
        rcases pyReplaceF_sharp_head x 's' n cs hhd with h1 | h2
        · exact hxs h1.symm
        · exact hpair ⟨hcy, h2⟩

/-- `str.replace` is the identity when the pattern does not occur. -/
lemma pyReplaceF_id (p r : List Char) :
    ∀ (fuel : Nat) (s : List Char), hasSub p s = false →
      pyReplaceF p r fuel s = s := by
  intro fuel
  induction fuel with
  | zero =>
    intro s _
    cases s with
    | nil => rfl
    | cons c cs => rfl
  | succ n ih =>
    intro s h
    cases s with
    | nil => rfl
    | cons c cs =>
      rw [hasSub_cons_false] at h
      obtain ⟨hp, hrec⟩ := h
      rw [pyReplaceF, if_neg]
      · rw [ih cs hrec]
      · rintro ⟨-, hpre⟩
        rw [hp] at hpre
        exact Bool.false_ne_true hpre

/-- Wrapper form of `pyReplaceF_id`. -/
lemma pyReplace_id (p r s : List Char) (h : hasSub p s = false) :
    pyReplace p r s = s :=
  pyReplaceF_id p r s.length s h

/-- Later sharp-respelling passes preserve the absence of `[y, 's']`. -/
lemma foldl_sharp_preserve (y : Char) (hy : y ≠ '#') :
    ∀ (l : List Char), (∀ c ∈ l, c ≠ 's') →
      ∀ s, hasSub [y, 's'] s = false →
        hasSub [y, 's']
          (l.foldl (fun acc n => pyReplace [n, 's'] [n, '#'] acc) s) = false := by
  intro l
  induction l with
  | nil => exact fun _ s h => h
  | cons a as ih =>
    intro hmem s h
    simp only [List.foldl_cons]
    exact ih (fun c hc => hmem c (List.mem_cons_of_mem _ hc)) _
      (pyReplaceF_sharp_other a y (hmem a (List.mem_cons_self _ _)) hy _ s h)

/-- After all sharp-respelling passes, no pattern of a processed letter
followed by `'s'` remains. -/
lemma foldl_sharp_noPair :
    ∀ (l : List Char), (∀ c ∈ l, c ≠ 's' ∧ c ≠ '#') →
      ∀ s x, x ∈ l →
        hasSub [x, 's']
          (l.foldl (fun acc n => pyReplace [n, 's'] [n, '#'] acc) s) = false := by
  intro l
  induction l with
  | nil =>
    intro _ s x hx
    cases hx
  | cons a as ih =>
    intro hmem s x hx
    simp only [List.foldl_cons]
    rcases List.mem_cons.mp hx with rfl | hx2
    · have ha := hmem x (List.mem_cons_self _ _)
      exact foldl_sharp_preserve x ha.2 as
        (fun c hc => (hmem c (List.mem_cons_of_mem _ hc)).1) _
        (pyReplaceF_sharp_self x ha.1 ha.2 s.length s le_rfl)
    · exact ih (fun c hc => hmem c (List.mem_cons_of_mem _ hc)) _ x hx2

/-- `fix_sharps` leaves no natural note letter immediately followed by
`'s'`. -/
lemma fix_sharps_noPair (s : List Char) (x : Char) (hx : x ∈ NOTE_LETTERS) :
    hasSub [x, 's'] (fix_sharps s) = false :=
  foldl_sharp_noPair NOTE_LETTERS (by decide) s x hx

/-- `fix_sharps` is the identity on a string with no natural note letter
immediately followed by `'s'`. -/
lemma fix_sharps_id (s : List Char)
    (h : ∀ x ∈ NOTE_LETTERS, hasSub [x, 's'] s = false) : fix_sharps s = s := by
  unfold fix_sharps
  have aux : ∀ (l : List Char), (∀ x ∈ l, hasSub [x, 's'] s = false) →
      l.foldl (fun acc n => pyReplace [n, 's'] [n, '#'] acc) s = s := by
    intro l
    induction l with
    | nil => intro _; rfl
    | cons a as ih =>
      intro hl
      simp only [List.foldl_cons]
      rw [pyReplace_id _ _ _ (hl a (List.mem_cons_self _ _))]
      exact ih fun x hx => hl x (List.mem_cons_of_mem _ hx)
  exact aux NOTE_LETTERS h

/-- Joining sharp-free root and bass across `'/'` stays sharp-free. -/
lemma hasSub_pair_slash_join (x : Char) (hx1 : x ≠ '/') (a b : List Char)
    (ha : hasSub [x, 's'] a = false) (hb : hasSub [x, 's'] b = false) :
    hasSub [x, 's'] (a ++ '/' :: b) = false := by
  by_contra hcon
  rw [Bool.not_eq_false] at hcon
  rcases hasSub_pair_append_split x 's' a ('/' :: b) hcon with h1 | h2 | ⟨-, hr⟩
  · exact absurd h1 (by simp [ha])
  · rcases (hasSub_pair_cons x 's' '/' b).mp h2 with ⟨hc, -⟩ | hrec
    · exact hx1 hc.symm
    · exact absurd hrec (by simp [hb])
  · simp only [List.head?_cons, Option.some.injEq] at hr
    exact absurd hr (by decide)

/-- `applySharps` leaves no natural note letter immediately followed by
`'s'`. -/
lemma applySharps_noPair (s1 : List Char) (x : Char) (hx : x ∈ NOTE_LETTERS) :
    hasSub [x, 's'] (applySharps s1) = false := by
  unfold applySharps
  have hall : ∀ c ∈ NOTE_LETTERS, c ≠ '/' := by decide
  have hx1 : x ≠ '/' := hall x hx
  cases hsf : splitFirst '/' s1 with
  | none => exact fix_sharps_noPair s1 x hx
  | some rb =>
    exact hasSub_pair_slash_join x hx1 _ _
      (fix_sharps_noPair rb.1 x hx) (fix_sharps_noPair rb.2 x hx)

/-- Splitting at the first separator and rejoining gives back the string. -/
lemma splitFirst_eq (sep : Char) :
    ∀ (s a b : List Char), splitFirst sep s = some (a, b) →
      s = a ++ sep :: b := by
  intro s
  induction s with
  | nil => intro a b h; simp [splitFirst] at h
  | cons c cs ih =>
    intro a b h
    by_cases hc : c = sep
    · rw [splitFirst, if_pos hc] at h
      simp only [Option.some.injEq, Prod.mk.injEq] at h
      rw [← h.1, ← h.2, hc]
      rfl
    · rw [splitFirst, if_neg hc] at h
      cases hrec : splitFirst sep cs with
      | none => rw [hrec] at h; cases h
      | some p =>
        rw [hrec] at h
        simp only [Option.some.injEq, Prod.mk.injEq] at h
        rw [← h.1, ← h.2]
        rw [List.cons_append]
        exact congrArg (c :: ·) (ih p.1 p.2 (by rw [hrec]))

/-- `dropWhile` is the identity when no element satisfies the predicate. -/
lemma dropWhile_eq_self_of (P : Char → Bool) (l : List Char)
    (h : ∀ c ∈ l, P c = false) : l.dropWhile P = l := by
  cases l with
  | nil => rfl
  | cons c cs => simp [List.dropWhile_cons, h c (List.mem_cons_self _ _)]

/-- `pyStrip` is the identity on whitespace-free strings. -/
lemma pyStrip_id (s : List Char) (h : ∀ c ∈ s, pyIsSpace c = false) :
    pyStrip s = s := by
  unfold pyStrip
  rw [dropWhile_eq_self_of _ _ h]
  rw [dropWhile_eq_self_of _ _ (fun c hc => h c (List.mem_reverse.mp hc))]
  exact List.reverse_reverse s

/-- Grammar characters are not whitespace. -/
lemma allowed_not_space (c : Char) (h : allowedChar c = true) :
    pyIsSpace c = false := by
  simp only [allowedChar, Bool.or_eq_true, Bool.and_eq_true,
    decide_eq_true_eq] at h
  simp only [pyIsSpace, Bool.or_eq_false_iff, decide_eq_false_iff_not]
  omega

/-- Note letters are not whitespace. -/
lemma note_not_space (c : Char) (h : isNoteLetter c = true) :
    pyIsSpace c = false := by
  simp only [isNoteLetter, Bool.and_eq_true, decide_eq_true_eq] at h
  simp only [pyIsSpace, Bool.or_eq_false_iff, decide_eq_false_iff_not]
  omega

/-- The regex gate only returns its input, and only when the grammar
matches. -/
lemma gramGate_sound (z y : List Char) (h : gramGate z = some y) :
    y = z ∧ reMatchGrammar z = true := by
  unfold gramGate at h
  by_cases h1 : reMatchNote z = false
  · rw [if_pos h1] at h; cases h
  · rw [if_neg h1] at h
    by_cases h2 : reMatchGrammar z = false
    · rw [if_pos h2] at h; cases h
    · rw [if_neg h2] at h
      simp only [Option.some.injEq] at h
      exact ⟨h.symm, by simpa using h2⟩

/-- Soundness of `normalize_chord_symbol`: an accepted output matches the
canonical grammar and has no natural note letter immediately followed by
`'s'`. -/
lemma normalize_sound (x y : List Char)
    (h : normalize_chord_symbol x = some y) :
    reMatchGrammar y = true ∧
      ∀ n ∈ NOTE_LETTERS, hasSub [n, 's'] y = false := by
  unfold normalize_chord_symbol at h
  by_cases h1 : pyStrip x = []
  · rw [if_pos h1] at h; cases h
  · rw [if_neg h1] at h
    by_cases h2 : pyStrip x = str "N"
    · rw [if_pos h2] at h; cases h
    · rw [if_neg h2] at h
      by_cases h3 : (pyStrip x).head? = some '<' ∧ (pyStrip x).getLast? = some '>'
      · rw [if_pos h3] at h; cases h
      · rw [if_neg h3] at h
        obtain ⟨hy, hgram⟩ := gramGate_sound _ _ h
        subst hy
        exact ⟨hgram, fun n hn => applySharps_noPair _ n hn⟩

/-- Idempotence of the normalizer on outputs free of `"min"`. -/
lemma normalize_fixed (x y : List Char)
    (h : normalize_chord_symbol x = some y)
    (hmin : hasSub (str "min") y = false) :
    normalize_chord_symbol y = some y := by
  obtain ⟨hgram, hnop⟩ := normalize_sound x y h
  cases y with
  | nil => simp [reMatchGrammar] at hgram
  | cons c rest =>
    rw [reMatchGrammar, Bool.and_eq_true] at hgram
    obtain ⟨hc, hrest⟩ := hgram
    have hallmem : ∀ d ∈ (c :: rest), pyIsSpace d = false := by
      intro d hd
      rcases List.mem_cons.mp hd with rfl | hd2
      · exact note_not_space d hc
      · exact allowed_not_space d ((List.all_eq_true.mp hrest) d hd2)
    have hne : (c :: rest) ≠ ([] : List Char) := by simp
    have hnN : (c :: rest) ≠ str "N" := by
      intro heq
      have hcN : c = 'N' := by
        have := congrArg List.head? heq
        simpa [str] using this
      rw [hcN] at hc
      exact absurd hc (by decide)
    have hnMk : ¬((c :: rest).head? = some '<' ∧
        (c :: rest).getLast? = some '>') := by
      rintro ⟨hh, -⟩
      simp only [List.head?_cons, Option.some.injEq] at hh
      rw [hh] at hc
      exact absurd hc (by decide)
    have hnote : reMatchNote (c :: rest) = true := by
      simp [reMatchNote, hc]
    have hgram2 : reMatchGrammar (c :: rest) = true := by
      simp [reMatchGrammar, hc, hrest]
    unfold normalize_chord_symbol
    rw [pyStrip_id _ hallmem, if_neg hne, if_neg hnN, if_neg hnMk,
      pyReplace_id _ _ _ hmin]
    cases hsf : splitFirst '/' (c :: rest) with
    | none =>
      unfold applySharps
      rw [hsf]
      show gramGate (fix_sharps (c :: rest)) = some (c :: rest)
      rw [fix_sharps_id _ (fun n hn => hnop n hn)]
      rw [gramGate, if_neg (by simp [hnote]), if_neg (by simp [hgram2])]
    | some ab =>
      have hy := splitFirst_eq '/' (c :: rest) ab.1 ab.2 (by rw [hsf])
      have hna : ∀ n ∈ NOTE_LETTERS, hasSub [n, 's'] ab.1 = false := by
        intro n hn
        by_contra hcon
        rw [Bool.not_eq_false] at hcon
        have h2 := hasSub_pair_append_left n 's' ab.1 ('/' :: ab.2) hcon
        rw [← hy] at h2
        exact absurd h2 (by simp [hnop n hn])
      have hnb : ∀ n ∈ NOTE_LETTERS, hasSub [n, 's'] ab.2 = false := by
        intro n hn
        by_contra hcon
        rw [Bool.not_eq_false] at hcon
        have h1 : hasSub [n, 's'] ('/' :: ab.2) = true :=
          (hasSub_pair_cons n 's' '/' ab.2).mpr (Or.inr hcon)
        have h2 := hasSub_pair_append_right n 's' ab.1 ('/' :: ab.2) h1
        rw [← hy] at h2
        exact absurd h2 (by simp [hnop n hn])
      unfold applySharps
      rw [hsf]
      show gramGate (fix_sharps ab.1 ++ '/' :: fix_sharps ab.2) = some (c :: rest)
      rw [fix_sharps_id _ hna, fix_sharps_id _ hnb, ← hy]
      rw [gramGate, if_neg (by simp [hnote]), if_neg (by simp [hgram2])]

/-- C1 (amended): the normalizer is idempotent on every accepted token
whose normalized result contains no occurrence of the substring `"min"`:
if `normalize_chord_symbol x = some y` and `"min"` does not occur in `y`,
then `normalize_chord_symbol y = some y`. -/
theorem c1_normalize_idempotent_min_free (x y : List Char)
    (h : normalize_chord_symbol x = some y)
    (hmin : hasSub (str "min") y = false) :
    normalize_chord_symbol y = some y :=
  normalize_fixed x y h hmin

/-- Witness for C1 at the concrete accepted token `"Am"`. -/
theorem c1_normalize_idempotent_min_free_witness :
    normalize_chord_symbol (str "Am") = some (str "Am") :=
  c1_normalize_idempotent_min_free (str "Am") (str "Am") (by decide) (by decide)

/-- Counterexample to C1 as stated: `"Aminin"` is accepted with result
`"Amin"`, but normalizing that result again gives `"Am"`, so
`normalize(normalize("Aminin"))` differs from `normalize("Aminin")`. -/
theorem c1_counterexample :
    normalize_chord_symbol (str "Aminin") = some (str "Amin") ∧
    normalize_chord_symbol (str "Amin") = some (str "Am") ∧
    str "Am" ≠ str "Amin" := by
  refine ⟨by decide, by decide, by decide⟩

/-- C2 (amended): every accepted output of `normalize_chord_symbol`
matches the canonical grammar (first character A-G, remaining characters
only letters, digits, `'#'`, `'/'`, `'b'`) and contains no natural note
letter immediately followed by `'s'`; the guarantee that the output never
contains the substring `"min"` is dropped, since the substring replacement
can re-form it. -/
theorem c2_normalize_output_grammar (x y : List Char)
    (h : normalize_chord_symbol x = some y) :
    reMatchGrammar y = true ∧
      ∀ n ∈ NOTE_LETTERS, hasSub [n, 's'] y = false :=
  normalize_sound x y h

/-- Witness for C2 at the concrete accepted token `"D/Fs"`. -/
theorem c2_normalize_output_grammar_witness :
    reMatchGrammar (str "D/F#") = true ∧
      ∀ n ∈ NOTE_LETTERS, hasSub [n, 's'] (str "D/F#") = false :=
  c2_normalize_output_grammar (str "D/Fs") (str "D/F#") (by decide)

/-- Counterexample to C2 as stated: the accepted token `"Cminin7"`
normalizes to `"Cmin7"`, which still contains the substring `"min"`. -/
theorem c2_counterexample :
    normalize_chord_symbol (str "Cminin7") = some (str "Cmin7") ∧
    hasSub (str "min") (str "Cmin7") = true := by
  refine ⟨by decide, by decide⟩

/-- C3: parsing `"<VERSE_1> Amin G <CHORUS_1> Cmin7 Fs"` yields exactly the
sections VERSE `[Am, G]` and CHORUS `[Cm7, F#]`, the sorted unique-chord
list `[Am, Cm7, F#, G]`, and (with 4 unique chords) difficulty 1. -/
theorem c3_scenario_verse_chorus :
    parse_sections_and_chords (str "<VERSE_1> Amin G <CHORUS_1> Cmin7 Fs") =
      some ⟨[⟨str "VERSE", [str "Am", str "G"]⟩,
             ⟨str "CHORUS", [str "Cm7", str "F#"]⟩],
            [str "Am", str "Cm7", str "F#", str "G"]⟩ ∧
    (parse_sections_and_chords (str "<VERSE_1> Amin G <CHORUS_1> Cmin7 Fs")).map
        (fun p => difficultyOf p.unique_chords.length) = some 1 := by
  refine ⟨by decide, by decide⟩

/-- An empty flushed section list means nothing was flushed. -/
lemma flushSection_eq_nil (secs : List PySection) (name : List Char)
    (prog : List (List Char)) :
    flushSection secs name prog = [] ↔ (secs = [] ∧ prog = []) := by
  unfold flushSection
  by_cases hp : prog = []
  · rw [if_pos hp]
    simp [hp]
  · rw [if_neg hp]
    simp [hp]

/-- Fail-fast: a rejected non-marker token anywhere in the stream makes the
whole loop return `none`, from any state. -/
lemma parseTokens_fail (toks : List (List Char)) :
    ∀ secs name prog,
      (∃ t ∈ toks, isMarkerTok t = false ∧ normalize_chord_symbol t = none) →
      parseTokens secs name prog toks = none := by
  induction toks with
  | nil =>
    rintro secs name prog ⟨t, ht, -⟩
    cases ht
  | cons t ts ih =>
    rintro secs name prog ⟨u, hu, hm, hn⟩
    rcases List.mem_cons.mp hu with rfl | hu2
    · rw [parseTokens, if_neg (by simp [hm]), hn]
    · rw [parseTokens]
      by_cases hmt : isMarkerTok t = true
      · rw [if_pos hmt]
        exact ih _ _ _ ⟨u, hu2, hm, hn⟩
      · rw [if_neg hmt]
        cases hnt : normalize_chord_symbol t with
        | none => rfl
        | some n => exact ih _ _ _ ⟨u, hu2, hm, hn⟩

/-- A stream of only markers accumulates nothing and returns `none`. -/
lemma parseTokens_allMarkers (toks : List (List Char)) :
    ∀ name, (∀ t ∈ toks, isMarkerTok t = true) →
      parseTokens [] name [] toks = none := by
  induction toks with
  | nil => intro name _; rfl
  | cons t ts ih =>
    intro name h
    rw [parseTokens, if_pos (h t (List.mem_cons_self _ _))]
    exact ih _ fun u hu => h u (List.mem_cons_of_mem _ hu)

/-- If every non-marker token is accepted and something will be flushed,
the loop succeeds. -/
lemma parseTokens_success (toks : List (List Char)) :
    ∀ secs name prog,
      (∀ t ∈ toks, isMarkerTok t = false → normalize_chord_symbol t ≠ none) →
      (secs ≠ [] ∨ prog ≠ [] ∨ ∃ t ∈ toks, isMarkerTok t = false) →
      (parseTokens secs name prog toks).isSome = true := by
  induction toks with
  | nil =>
    intro secs name prog _ hne
    rw [parseTokens]
    by_cases hfl : flushSection secs name prog = []
    · obtain ⟨h1, h2⟩ := (flushSection_eq_nil secs name prog).mp hfl
      rcases hne with h | h | ⟨t, ht, -⟩
      · exact absurd h1 h
      · exact absurd h2 h
      · cases ht
    · rw [if_neg hfl]
      rfl
  | cons t ts ih =>
    intro secs name prog hall hne
    rw [parseTokens]
    by_cases hmt : isMarkerTok t = true
    · rw [if_pos hmt]
      apply ih
      · exact fun u hu => hall u (List.mem_cons_of_mem _ hu)
      · rcases hne with h1 | h2 | ⟨u, hu, hm⟩
        · exact Or.inl fun hfl =>
            h1 ((flushSection_eq_nil secs name prog).mp hfl).1
        · exact Or.inl fun hfl =>
            h2 ((flushSection_eq_nil secs name prog).mp hfl).2
        · rcases List.mem_cons.mp hu with rfl | hu2
          · rw [hmt] at hm
            cases hm
          · exact Or.inr (Or.inr ⟨u, hu2, hm⟩)
    · rw [if_neg hmt]
      have hm : isMarkerTok t = false := by simpa using hmt
      cases hnt : normalize_chord_symbol t with
      | none => exact absurd hnt (hall t (List.mem_cons_self _ _) hm)
      | some n =>
        show (parseTokens secs name (prog ++ [n]) ts).isSome = true
        apply ih
        · exact fun u hu => hall u (List.mem_cons_of_mem _ hu)
        · exact Or.inr (Or.inl (by simp))

/-- Transfer a failing loop to the wrapper. -/
lemma parse_eq_none_of_loop (chords_str : List Char)
    (h : parseTokens [] (str "GLOBAL") [] (pySplit chords_str) = none) :
    parse_sections_and_chords chords_str = none := by
  unfold parse_sections_and_chords
  rw [h]

/-- Transfer a succeeding loop to the wrapper. -/
lemma parse_isSome_of_loop (chords_str : List Char)
    (h : (parseTokens [] (str "GLOBAL") [] (pySplit chords_str)).isSome = true) :
    (parse_sections_and_chords chords_str).isSome = true := by
  unfold parse_sections_and_chords
  cases hp : parseTokens [] (str "GLOBAL") [] (pySplit chords_str) with
  | none =>
    rw [hp] at h
    cases h
  | some secs => rfl

/-- C4: the section parser is fail-fast: any rejected non-marker token
rejects the whole text; a text whose tokens are all markers (or empty)
is rejected for producing zero sections; otherwise (some non-marker token,
and every non-marker token accepted) the parse succeeds. -/
theorem c4_parser_fail_fast (text : List Char) :
    ((∃ t ∈ pySplit text, isMarkerTok t = false ∧
        normalize_chord_symbol t = none) →
      parse_sections_and_chords text = none) ∧
    ((∀ t ∈ pySplit text, isMarkerTok t = true) →
      parse_sections_and_chords text = none) ∧
    (((∃ t ∈ pySplit text, isMarkerTok t = false) ∧
      (∀ t ∈ pySplit text, isMarkerTok t = false →
        normalize_chord_symbol t ≠ none)) →
      (parse_sections_and_chords text).isSome = true) := by
  refine ⟨?_, ?_, ?_⟩
  · intro hex
    exact parse_eq_none_of_loop _ (parseTokens_fail _ _ _ _ hex)
  · intro hall
    exact parse_eq_none_of_loop _ (parseTokens_allMarkers _ _ hall)
  · rintro ⟨⟨t, ht, hm⟩, hall⟩
    exact parse_isSome_of_loop _
      (parseTokens_success _ _ _ _ hall (Or.inr (Or.inr ⟨t, ht, hm⟩)))

/-- Witness for C4 at three concrete progression texts: a text with a
rejected token, a text with only markers, and a fully valid text. -/
theorem c4_parser_fail_fast_witness :
    parse_sections_and_chords (str "Amin xx") = none ∧
    parse_sections_and_chords (str "<VERSE_1> <CHORUS_1>") = none ∧
    (parse_sections_and_chords (str "<VERSE_1> Amin G")).isSome = true :=
  ⟨(c4_parser_fail_fast (str "Amin xx")).1 (by decide),
   (c4_parser_fail_fast (str "<VERSE_1> <CHORUS_1>")).2.1 (by decide),
   (c4_parser_fail_fast (str "<VERSE_1> Amin G")).2.2 (by decide)⟩

-- ------------ RATE-LIMIT BACKOFF ------------

/-- `handle_rate_limit(resp, retry_count)` from the script. A response is
modelled by its status code and its parsed `Retry-After` header (`none`
when the header is absent, in which case the default is
`BASE_RETRY_DELAY`). Returns `.ok (some w)` after sleeping `w` seconds,
`.ok none` when `retry_count` has reached `MAX_RETRIES` (give up), and
`.error w` when the computed wait `w` is negative: the wait is computed
and printed, but `time.sleep(w)` then raises `ValueError`, which
propagates to the caller. -/
def handle_rate_limit (statusCode : Nat) (retryAfter : Option Int)
    (retryCount : Nat) : Except Int (Option Int) :=
  if statusCode ≠ 429 then .ok (some 0)
  else if MAX_RETRIES ≤ retryCount then .ok none
  else
    if retryAfter.getD BASE_RETRY_DELAY +
        BASE_RETRY_DELAY * (retryCount : Int) < 0 then
      .error (retryAfter.getD BASE_RETRY_DELAY +
        BASE_RETRY_DELAY * (retryCount : Int))
    else
      .ok (some (retryAfter.getD BASE_RETRY_DELAY +
        BASE_RETRY_DELAY * (retryCount : Int)))

/-- The `for retry in range(MAX_RETRIES)` loop of `fetch_spotify_track`,
projected onto the waits it computes while consecutive responses are 429:
`resp n` is the status code and parsed `Retry-After` of the response to
attempt `n`. The loop leaves the 429 path at the first non-429 response;
on `.ok none` it returns `None`; on `.error w` the `ValueError` from
`time.sleep` is caught by the surrounding `except Exception`, so the
request aborts with `w` as its last computed wait. -/
def fetchTrackLoopWaits (resp : Nat → Nat × Option Int) :
    Nat → Nat → List Int
  | _, 0 => []
  | retry, rem + 1 =>
    if (resp retry).1 = 429 then
      match handle_rate_limit (resp retry).1 (resp retry).2 retry with
      | .ok none => []
      | .ok (some w) => w :: fetchTrackLoopWaits resp (retry + 1) rem
      | .error w => [w]
    else []

/-- The waits computed by `fetch_spotify_track` for one request. -/
def fetch_spotify_track_waits (resp : Nat → Nat × Option Int) : List Int :=
  fetchTrackLoopWaits resp 0 MAX_RETRIES

/-- The `for retry in range(MAX_RETRIES)` loop of
`search_spotify_for_preview`, projected onto its computed waits (the
source duplicates the track-lookup loop verbatim, including the
`except Exception` that catches the `ValueError` of a negative sleep). -/
def searchLoopWaits (resp : Nat → Nat × Option Int) : Nat → Nat → List Int
  | _, 0 => []
  | retry, rem + 1 =>
    if (resp retry).1 = 429 then
      match handle_rate_limit (resp retry).1 (resp retry).2 retry with
      | .ok none => []
      | .ok (some w) => w :: searchLoopWaits resp (retry + 1) rem
      | .error w => [w]
    else []

/-- The waits computed by `search_spotify_for_preview` for one request. -/
def search_spotify_for_preview_waits (resp : Nat → Nat × Option Int) :
    List Int :=
  searchLoopWaits resp 0 MAX_RETRIES

/-- The ad-hoc 429 handling inside `fetch_artist_genres`: a single
immediate re-request, sleeping only the server-suggested wait (header
default `"1"`), with no added delay, no `handle_rate_limit`, and no
retry loop. -/
def fetch_artist_genres_waits (resp : Nat → Nat × Option Int) : List Int :=
  if (resp 0).1 = 429 then [(resp 0).2.getD 1] else []

/-- The number of waits computed by the track-lookup retry loop is
bounded by the remaining attempt budget, with no assumption on the
responses. -/
lemma fetchTrackLoopWaits_length (resp : Nat → Nat × Option Int) :
    ∀ (rem retry : Nat), (fetchTrackLoopWaits resp retry rem).length ≤ rem := by
  intro rem
  induction rem with
  | zero =>
    intro retry
    simp [fetchTrackLoopWaits]
  | succ n ih =>
    intro retry
    rw [fetchTrackLoopWaits]
    by_cases hst : (resp retry).1 = 429
    · rw [if_pos hst]
      cases handle_rate_limit (resp retry).1 (resp retry).2 retry with
      | error w => simp
      | ok o =>
        cases o with
        | none => simp
        | some w =>
          simp only [List.length_cons]
          have := ih (retry + 1)
          omega
    · rw [if_neg hst]
      simp

/-- Invariants of the track-lookup retry loop under well-behaved
`Retry-After` headers, for any window of the attempt counter. -/
lemma fetchTrackLoopWaits_spec (resp : Nat → Nat × Option Int)
    (h1 : ∀ i, i < MAX_RETRIES → 0 ≤ (resp i).2.getD BASE_RETRY_DELAY)
    (h2 : ∀ i, i + 1 < MAX_RETRIES →
      (resp i).2.getD BASE_RETRY_DELAY - BASE_RETRY_DELAY ≤
        (resp (i + 1)).2.getD BASE_RETRY_DELAY) :
    ∀ (rem retry : Nat), retry + rem = MAX_RETRIES →
      (∀ w ∈ fetchTrackLoopWaits resp retry rem, 0 ≤ w) ∧
      List.Chain' (fun a b => a ≤ b) (fetchTrackLoopWaits resp retry rem) ∧
      (∀ w, (fetchTrackLoopWaits resp retry rem).head? = some w →
        w = (resp retry).2.getD BASE_RETRY_DELAY +
          BASE_RETRY_DELAY * (retry : Int)) := by
  intro rem
  induction rem with
  | zero =>
    intro retry _
    refine ⟨by simp [fetchTrackLoopWaits], by simp [fetchTrackLoopWaits],
      by simp [fetchTrackLoopWaits]⟩
  | succ n ih =>
    intro retry hsum
    have hretry : retry < MAX_RETRIES := by omega
    have hB : BASE_RETRY_DELAY = 5 := rfl
    have hw0 : 0 ≤ (resp retry).2.getD BASE_RETRY_DELAY +
        BASE_RETRY_DELAY * (retry : Int) := by
      have hra := h1 retry hretry
      rw [hB] at hra ⊢
      omega
    rw [fetchTrackLoopWaits]
    by_cases hst : (resp retry).1 = 429
    · rw [if_pos hst]
      have hhrl : handle_rate_limit (resp retry).1 (resp retry).2 retry =
          .ok (some ((resp retry).2.getD BASE_RETRY_DELAY +
            BASE_RETRY_DELAY * (retry : Int))) := by
        unfold handle_rate_limit
        rw [if_neg (by simp [hst]), if_neg (by omega), if_neg (by omega)]
      rw [hhrl]
      obtain ⟨ihn, ihc, ihh⟩ := ih (retry + 1) (by omega)
      refine ⟨?_, ?_, ?_⟩
      · intro w hw
        rcases List.mem_cons.mp hw with rfl | hw2
        · exact hw0
        · exact ihn w hw2
      · refine List.chain'_cons'.mpr ⟨?_, ihc⟩
        intro y hy
        have hy2 : (fetchTrackLoopWaits resp (retry + 1) n).head? = some y :=
          hy
        have hnn : n ≠ 0 := by
          intro h0
          rw [h0, fetchTrackLoopWaits] at hy2
          cases hy2
        have hy3 := ihh y hy2
        have hstep := h2 retry (by omega)
        rw [hy3]
        rw [hB] at hstep ⊢
        push_cast
        omega
      · intro w hw
        simp only [List.head?_cons, Option.some.injEq] at hw
        exact hw.symm
    · rw [if_neg hst]
      refine ⟨by simp, by simp, by simp⟩

/-- C5 (amended): for a single request receiving consecutive 429
responses, the number of computed waits never exceeds `MAX_RETRIES`
(unconditionally); and provided every server-suggested Retry-After is
non-negative and no Retry-After drops by more than `BASE_RETRY_DELAY`
from one retry to the next, every computed wait is non-negative and the
waits are non-decreasing. -/
theorem c5_backoff_waits (resp : Nat → Nat × Option Int) :
    (fetch_spotify_track_waits resp).length ≤ MAX_RETRIES ∧
    ((∀ i, i < MAX_RETRIES → 0 ≤ (resp i).2.getD BASE_RETRY_DELAY) →
     (∀ i, i + 1 < MAX_RETRIES →
       (resp i).2.getD BASE_RETRY_DELAY - BASE_RETRY_DELAY ≤
         (resp (i + 1)).2.getD BASE_RETRY_DELAY) →
     (∀ w ∈ fetch_spotify_track_waits resp, 0 ≤ w) ∧
     List.Chain' (fun a b => a ≤ b) (fetch_spotify_track_waits resp)) := by
  refine ⟨fetchTrackLoopWaits_length resp MAX_RETRIES 0, ?_⟩
  intro h1 h2
  obtain ⟨ha, hb, -⟩ :=
    fetchTrackLoopWaits_spec resp h1 h2 MAX_RETRIES 0 (by decide)
  exact ⟨ha, hb⟩

/-- Response sequence used in the C5 witness: every attempt is answered
429 with `Retry-After: 2`. -/
def c5GoodResp (_ : Nat) : Nat × Option Int := (429, some 2)

/-- Witness for C5 at the concrete all-429 response sequence with
`Retry-After: 2`. -/
theorem c5_backoff_waits_witness :
    (fetch_spotify_track_waits c5GoodResp).length ≤ MAX_RETRIES ∧
    (∀ w ∈ fetch_spotify_track_waits c5GoodResp, 0 ≤ w) ∧
    List.Chain' (fun a b => a ≤ b) (fetch_spotify_track_waits c5GoodResp) :=
  ⟨(c5_backoff_waits c5GoodResp).1,
   ((c5_backoff_waits c5GoodResp).2 (fun i _ => by norm_num [c5GoodResp])
     (fun i _ => by norm_num [c5GoodResp, BASE_RETRY_DELAY])).1,
   ((c5_backoff_waits c5GoodResp).2 (fun i _ => by norm_num [c5GoodResp])
     (fun i _ => by norm_num [c5GoodResp, BASE_RETRY_DELAY])).2⟩

/-- Response sequence refuting C5 as stated: the server suggests
`Retry-After: 100` on the first attempt and `Retry-After: -7` afterwards
(`int()` accepts a negative header value). -/
def c5BadResp (i : Nat) : Nat × Option Int :=
  (429, if i = 0 then some 100 else some (-7))

/-- Counterexample to C5 as stated: with the response sequence
`c5BadResp` the computed waits are `[100, -2]` — the second computed wait
is negative (its `time.sleep` raises `ValueError` and the request aborts)
and the computed waits are not non-decreasing. -/
theorem c5_counterexample :
    fetch_spotify_track_waits c5BadResp = [100, -2] ∧
    (fetch_spotify_track_waits c5BadResp).all (fun w => decide (0 ≤ w)) =
      false ∧
    ¬ List.Chain' (fun a b => a ≤ b) (fetch_spotify_track_waits c5BadResp) := by
  refine ⟨by decide, by decide, ?_⟩
  intro h
  rw [show fetch_spotify_track_waits c5BadResp = [100, -2] from by decide] at h
  exact absurd (List.chain'_cons.mp h).1 (by norm_num)

/-- C6 (amended): the bounded-retry backoff loop is applied identically to
the direct track lookup and to the text-search fallback (their wait
sequences agree on every response sequence); the artist-genre lookup does
not share it — it performs a single immediate retry sleeping only the
server-suggested wait (default 1 second), with no added linear delay and
no bounded-retry abort. -/
theorem c6_backoff_shared_track_search (resp : Nat → Nat × Option Int) :
    search_spotify_for_preview_waits resp = fetch_spotify_track_waits resp := by
  have aux : ∀ (rem retry : Nat),
      searchLoopWaits resp retry rem = fetchTrackLoopWaits resp retry rem := by
    intro rem
    induction rem with
    | zero => intro retry; rfl
    | succ n ih =>
      intro retry
      rw [searchLoopWaits, fetchTrackLoopWaits]
      by_cases hst : (resp retry).1 = 429
      · rw [if_pos hst, if_pos hst]
        cases handle_rate_limit (resp retry).1 (resp retry).2 retry with
        | error w => rfl
        | ok o =>
          cases o with
          | none => rfl
          | some w => simp [ih]
      · rw [if_neg hst, if_neg hst]

  exact aux MAX_RETRIES 0

/-- Response sequence used in the C6 counterexample: every attempt is
answered 429 with `Retry-After: 2`. -/
def c6Resp (_ : Nat) : Nat × Option Int := (429, some 2)

/-- Counterexample to C6 as stated: on the all-429 sequence `c6Resp` the
artist-genre lookup waits `[2]` while the track lookup waits
`[2, 7, 12]`, so the backoff state machine is not applied identically to
every request type. -/
theorem c6_counterexample :
    fetch_artist_genres_waits c6Resp = [2] ∧
    fetch_spotify_track_waits c6Resp = [2, 7, 12] ∧
    fetch_artist_genres_waits c6Resp ≠ fetch_spotify_track_waits c6Resp := by
  refine ⟨by decide, by decide, by decide⟩
-- ------------ DRIVER (main row loop) ------------

/-- Decimal digit character. -/
def digitChar (n : Nat) : Char := Char.ofNat (48 + n)

/-- Fueled decimal digits (most significant first); fuel `n` suffices. -/
def natDigitsF : Nat → Nat → List Char
  | _, 0 => []
  | 0, _ + 1 => []
  | fuel + 1, n + 1 =>
    natDigitsF fuel ((n + 1) / 10) ++ [digitChar ((n + 1) % 10)]

/-- Python `str(n)` for the row counter. -/
def natToStr (n : Nat) : List Char :=
  if n = 0 then str "0" else natDigitsF n n

lemma natToStr_ne_nil (n : Nat) : natToStr n ≠ [] := by
  unfold natToStr
  by_cases h : n = 0
  · rw [if_pos h]
    simp [str]
  · rw [if_neg h]
    cases n with
    | zero => exact absurd rfl h
    | succ m => simp [natDigitsF]

/-- A CSV row, restricted to the fields the driver reads. A field is
`none` when the column is absent (Python `None`) and `some []` when it is
present but empty — Python's `or` chains distinguish the two. -/
structure Row where
  id : Option (List Char)
  song_id : Option (List Char)
  track_id : Option (List Char)
  chords : Option (List Char)
  artist_id : Option (List Char)
  spotify_song_id : Option (List Char)
deriving DecidableEq

/-- Python `a or b` on optional strings: keep `a` when truthy (present
and non-empty), else `b`. -/
def pyOrStr (a b : Option (List Char)) : Option (List Char) :=
  match a with
  | some (c :: cs) => some (c :: cs)
  | _ => b

/-- Python `x or ""`. -/
def orEmpty (a : Option (List Char)) : List Char :=
  match a with
  | some s => s
  | none => []

/-- `raw_id = row.get("id") or row.get("song_id") or row.get("track_id")`;
`none` models the Python `None` the driver tests with `is None`. -/
def rawIdOf (row : Row) : Option (List Char) :=
  pyOrStr row.id (pyOrStr row.song_id row.track_id)

/-- The emitted song record, restricted to the fields the claims touch. -/
structure Song where
  id : List Char
  title : List Char
  artist : List Char
  chords : List (List Char)
  sections : List PySection
  difficulty : Nat
deriving DecidableEq

/-- `build_song_object`: `none` models the `ValueError` raised when the
row has no identifier-eligible field; otherwise the record with
identifier `"chrd-" ++ raw_id` and the derived difficulty. -/
def build_song_object (row : Row) (parsed : ParsedProgression)
    (title artist : List Char) : Option Song :=
  match rawIdOf row with
  | none => none
  | some raw_id =>
    some { id := str "chrd-" ++ raw_id, title := title, artist := artist,
           chords := parsed.unique_chords, sections := parsed.sections,
           difficulty := difficultyOf parsed.unique_chords.length }

/-- The synthetic default title `f"Chordonomicon Song {raw_id}"`. -/
def default_title (raw_id : List Char) : List Char :=
  str "Chordonomicon Song " ++ raw_id

/-- The synthetic default artist: `f"Artist {artist_id}"` when the row has
an artist id, else `"Unknown Artist"`. -/
def default_artist (aid : List Char) : List Char :=
  if aid = [] then str "Unknown Artist" else str "Artist " ++ aid

/-- The driver's placeholder filter: reject when the title starts with
`"Chordonomicon Song"`, or the artist starts with `"Artist "`, equals
`"Unknown Artist"`, or contains `"Unknown"`. -/
def placeholder_check (title artist : List Char) : Bool :=
  isPre (str "Chordonomicon Song") title || isPre (str "Artist ") artist ||
  decide (artist = str "Unknown Artist") || hasSub (str "Unknown") artist

/-- Driver configuration: CLI flags and the enrichment oracle — `enrich
sid` is `some (title, artist)` when `fetch_spotify_track` succeeds for
that Spotify id, `none` when it returns `None`. -/
structure DriverCfg where
  skip_first_n : Nat
  max_songs : Option Nat
  tokenPresent : Bool
  enrich : List Char → Option (List Char × List Char)

/-- Driver state: accumulated songs, identifier set, counters, and
whether the `max_songs` break has fired. -/
structure DriverState where
  songs : List Song
  existing_ids : List (List Char)
  total_rows : Nat
  kept : Nat
  skipped_invalid : Nat
  skipped_complex : Nat
  skipped_no_metadata : Nat
  skipped_for_resume : Nat
  skipped_duplicate : Nat
  stopped : Bool
deriving DecidableEq

/-- Resolve title/artist for a row: synthetic defaults, replaced by the
Spotify result when a token is present, the row has a Spotify id, and the
fetch succeeds. -/
def enrichedTitleArtist (cfg : DriverCfg) (row2 : Row) (raw_id : List Char) :
    List Char × List Char :=
  let sid := pyStrip (orEmpty row2.spotify_song_id)
  if cfg.tokenPresent = true ∧ sid ≠ [] then
    match cfg.enrich sid with
    | some ta => ta
    | none => (default_title raw_id, default_artist (orEmpty row2.artist_id))
  else (default_title raw_id, default_artist (orEmpty row2.artist_id))

/-- Append a kept song, record its identifier, bump `kept`, and fire the
`max_songs` break when the cap is reached. -/
def tryAppend (cfg : DriverCfg) (st : DriverState) (song : Song) :
    DriverState :=
  match cfg.max_songs with
  | some m =>
    if m ≤ st.kept + 1 then
      { st with songs := st.songs ++ [song],
                existing_ids := st.existing_ids ++ [song.id],
                kept := st.kept + 1, stopped := true }
    else
      { st with songs := st.songs ++ [song],
                existing_ids := st.existing_ids ++ [song.id],
                kept := st.kept + 1 }
  | none =>
    { st with songs := st.songs ++ [song],
              existing_ids := st.existing_ids ++ [song.id],
              kept := st.kept + 1 }

/-- The tail of the per-row processing after parsing and the complexity
filter, with the row identifier already resolved: enrichment, the
placeholder filter, record assembly, and the append. -/
def afterFilter (cfg : DriverCfg) (st1 : DriverState) (row2 : Row)
    (parsed : ParsedProgression) (raw_id : List Char) : DriverState :=
  let ta := enrichedTitleArtist cfg row2 raw_id
  if placeholder_check ta.1 ta.2 then
    { st1 with skipped_no_metadata := st1.skipped_no_metadata + 1 }
  else
    match build_song_object row2 parsed ta.1 ta.2 with
    | none => { st1 with skipped_invalid := st1.skipped_invalid + 1 }
    | some song => tryAppend cfg st1 song

/-- One row of the driver loop after the row counter bump: the
skip-window, the empty-chords skip, the early duplicate check, parsing,
the complexity filter, and the missing-id fallback
(`row["id"] = str(total_rows)` with its second duplicate check). -/
def processRowBody (cfg : DriverCfg) (st1 : DriverState) (row : Row) :
    DriverState :=
  if 0 < cfg.skip_first_n ∧ st1.total_rows ≤ cfg.skip_first_n then
    { st1 with skipped_for_resume := st1.skipped_for_resume + 1 }
  else
    match pyOrStr row.chords none with
    | none => st1
    | some chords_str =>
      match rawIdOf row with
      | some rid =>
        if (str "chrd-" ++ rid) ∈ st1.existing_ids then
          { st1 with skipped_duplicate := st1.skipped_duplicate + 1 }
        else
          match parse_sections_and_chords chords_str with
          | none => { st1 with skipped_invalid := st1.skipped_invalid + 1 }
          | some parsed =>
            if MAX_UNIQUE_CHORDS < parsed.unique_chords.length then
              { st1 with skipped_complex := st1.skipped_complex + 1 }
            else afterFilter cfg st1 row parsed rid
      | none =>
        match parse_sections_and_chords chords_str with
        | none => { st1 with skipped_invalid := st1.skipped_invalid + 1 }
        | some parsed =>
          if MAX_UNIQUE_CHORDS < parsed.unique_chords.length then
            { st1 with skipped_complex := st1.skipped_complex + 1 }
          else
            if (str "chrd-" ++ natToStr st1.total_rows) ∈ st1.existing_ids then
              { st1 with skipped_duplicate := st1.skipped_duplicate + 1 }
            else
              afterFilter cfg st1
                { row with id := some (natToStr st1.total_rows) }
                parsed (natToStr st1.total_rows)

/-- One iteration of the driver's row loop; `stopped` models the
`max_songs` break (once fired, remaining rows are not processed). -/
def processRow (cfg : DriverCfg) (st : DriverState) (row : Row) :
    DriverState :=
  if st.stopped then st
  else processRowBody cfg { st with total_rows := st.total_rows + 1 } row

/-- Initial driver state in resume/default mode with the loaded prior
records: `songs = existing_songs`, `existing_ids = {s["id"] for s in
existing_songs}`, `kept = len(songs)`. -/
def initState (prior : List Song) : DriverState :=
  { songs := prior, existing_ids := prior.map Song.id, total_rows := 0,
    kept := prior.length, skipped_invalid := 0, skipped_complex := 0,
    skipped_no_metadata := 0, skipped_for_resume := 0,
    skipped_duplicate := 0, stopped := false }

/-- The driver's loop over the CSV rows. -/
def runDriver (cfg : DriverCfg) (prior : List Song) (rows : List Row) :
    DriverState :=
  rows.foldl (processRow cfg) (initState prior)

lemma tryAppend_songs (cfg : DriverCfg) (st : DriverState) (song : Song) :
    (tryAppend cfg st song).songs = st.songs ++ [song] := by
  unfold tryAppend
  cases cfg.max_songs with
  | none => rfl
  | some m =>
    dsimp only
    by_cases h : m ≤ st.kept + 1
    · rw [if_pos h]
    · rw [if_neg h]

lemma tryAppend_existing (cfg : DriverCfg) (st : DriverState) (song : Song) :
    (tryAppend cfg st song).existing_ids = st.existing_ids ++ [song.id] := by
  unfold tryAppend
  cases cfg.max_songs with
  | none => rfl
  | some m =>
    dsimp only
    by_cases h : m ≤ st.kept + 1
    · rw [if_pos h]
    · rw [if_neg h]

lemma tryAppend_kept (cfg : DriverCfg) (st : DriverState) (song : Song) :
    (tryAppend cfg st song).kept = st.kept + 1 := by
  unfold tryAppend
  cases cfg.max_songs with
  | none => rfl
  | some m =>
    dsimp only
    by_cases h : m ≤ st.kept + 1
    · rw [if_pos h]
    · rw [if_neg h]

lemma tryAppend_stopped_of_cap (cfg : DriverCfg) (st : DriverState)
    (song : Song) (m : Nat) (hm : cfg.max_songs = some m)
    (h : m ≤ st.kept + 1) : (tryAppend cfg st song).stopped = true := by
  unfold tryAppend
  rw [hm]
  dsimp only
  rw [if_pos h]

/-- `afterFilter` either only bumps a skip counter or appends one song
whose identifier is `"chrd-" ++ raw_id`. -/
lemma afterFilter_cases (cfg : DriverCfg) (st1 : DriverState) (row2 : Row)
    (parsed : ParsedProgression) (raw_id : List Char)
    (hrow : rawIdOf row2 = some raw_id) :
    ((afterFilter cfg st1 row2 parsed raw_id).songs = st1.songs ∧
     (afterFilter cfg st1 row2 parsed raw_id).existing_ids =
       st1.existing_ids ∧
     (afterFilter cfg st1 row2 parsed raw_id).kept = st1.kept ∧
     (afterFilter cfg st1 row2 parsed raw_id).stopped = st1.stopped) ∨
    (∃ song : Song, song.id = str "chrd-" ++ raw_id ∧
      afterFilter cfg st1 row2 parsed raw_id = tryAppend cfg st1 song) := by
  unfold afterFilter
  by_cases hpc : placeholder_check (enrichedTitleArtist cfg row2 raw_id).1
      (enrichedTitleArtist cfg row2 raw_id).2 = true
  · rw [if_pos hpc]
    exact Or.inl ⟨rfl, rfl, rfl, rfl⟩
  · rw [if_neg hpc]
    have hb : build_song_object row2 parsed
        (enrichedTitleArtist cfg row2 raw_id).1
        (enrichedTitleArtist cfg row2 raw_id).2 =
        some { id := str "chrd-" ++ raw_id,
               title := (enrichedTitleArtist cfg row2 raw_id).1,
               artist := (enrichedTitleArtist cfg row2 raw_id).2,
               chords := parsed.unique_chords,
               sections := parsed.sections,
               difficulty := difficultyOf parsed.unique_chords.length } := by
      unfold build_song_object
      rw [hrow]
    rw [hb]
    exact Or.inr ⟨_, rfl, rfl⟩

/-- `processRowBody` either leaves songs, identifier set, kept counter and
stop flag unchanged, or appends one song whose identifier was not yet
present. -/
lemma processRowBody_cases (cfg : DriverCfg) (st1 : DriverState)
    (row : Row) :
    ((processRowBody cfg st1 row).songs = st1.songs ∧
     (processRowBody cfg st1 row).existing_ids = st1.existing_ids ∧
     (processRowBody cfg st1 row).kept = st1.kept ∧
     (processRowBody cfg st1 row).stopped = st1.stopped) ∨
    (∃ song : Song, song.id ∉ st1.existing_ids ∧
      processRowBody cfg st1 row = tryAppend cfg st1 song) := by
  unfold processRowBody
  by_cases hskip : 0 < cfg.skip_first_n ∧ st1.total_rows ≤ cfg.skip_first_n
  · rw [if_pos hskip]
    exact Or.inl ⟨rfl, rfl, rfl, rfl⟩
  · rw [if_neg hskip]
    cases hch : pyOrStr row.chords none with
    | none => exact Or.inl ⟨rfl, rfl, rfl, rfl⟩
    | some chords_str =>
      dsimp only
      cases hid : rawIdOf row with
      | some rid =>
        dsimp only
        by_cases hdup : (str "chrd-" ++ rid) ∈ st1.existing_ids
        · rw [if_pos hdup]
          exact Or.inl ⟨rfl, rfl, rfl, rfl⟩
        · rw [if_neg hdup]
          cases hp : parse_sections_and_chords chords_str with
          | none => exact Or.inl ⟨rfl, rfl, rfl, rfl⟩
          | some parsed =>
            dsimp only
            by_cases hcx : MAX_UNIQUE_CHORDS < parsed.unique_chords.length
            · rw [if_pos hcx]
              exact Or.inl ⟨rfl, rfl, rfl, rfl⟩
            · rw [if_neg hcx]
              rcases afterFilter_cases cfg st1 row parsed rid hid with
                ⟨h1, h2, h3, h4⟩ | ⟨song, hsid, heq⟩
              · exact Or.inl ⟨h1, h2, h3, h4⟩
              · refine Or.inr ⟨song, ?_, heq⟩
                rw [hsid]
                exact hdup
      | none =>
        dsimp only
        cases hp : parse_sections_and_chords chords_str with
        | none => exact Or.inl ⟨rfl, rfl, rfl, rfl⟩
        | some parsed =>
          dsimp only
          by_cases hcx : MAX_UNIQUE_CHORDS < parsed.unique_chords.length
          · rw [if_pos hcx]
            exact Or.inl ⟨rfl, rfl, rfl, rfl⟩
          · rw [if_neg hcx]
            by_cases hdup : (str "chrd-" ++ natToStr st1.total_rows) ∈
                st1.existing_ids
            · rw [if_pos hdup]
              exact Or.inl ⟨rfl, rfl, rfl, rfl⟩
            · rw [if_neg hdup]
              have hid2 : rawIdOf
                  { row with id := some (natToStr st1.total_rows) } =
                  some (natToStr st1.total_rows) := by
                obtain ⟨c, cs, hx⟩ :=
                  List.exists_cons_of_ne_nil (natToStr_ne_nil st1.total_rows)
                rw [hx]
                rfl
              rcases afterFilter_cases cfg st1
                  { row with id := some (natToStr st1.total_rows) } parsed
                  (natToStr st1.total_rows) hid2 with
                ⟨h1, h2, h3, h4⟩ | ⟨song, hsid, heq⟩
              · exact Or.inl ⟨h1, h2, h3, h4⟩
              · refine Or.inr ⟨song, ?_, heq⟩
                rw [hsid]
                exact hdup

/-- `processRow` either leaves songs, identifier set, kept counter and
stop flag unchanged, or (when not stopped) appends one song whose
identifier was not yet present. -/
lemma processRow_cases (cfg : DriverCfg) (st : DriverState) (row : Row) :
    ((processRow cfg st row).songs = st.songs ∧
     (processRow cfg st row).existing_ids = st.existing_ids ∧
     (processRow cfg st row).kept = st.kept ∧
     (processRow cfg st row).stopped = st.stopped) ∨
    (st.stopped = false ∧ ∃ song : Song, song.id ∉ st.existing_ids ∧
      processRow cfg st row =
        tryAppend cfg { st with total_rows := st.total_rows + 1 } song) := by
  unfold processRow
  by_cases hstop : st.stopped = true
  · rw [if_pos hstop]
    exact Or.inl ⟨rfl, rfl, rfl, rfl⟩
  · rw [if_neg hstop]
    rcases processRowBody_cases cfg { st with total_rows := st.total_rows + 1 }
        row with ⟨h1, h2, h3, h4⟩ | ⟨song, hs, heq⟩
    · exact Or.inl ⟨h1, h2, h3, h4⟩
    · exact Or.inr ⟨by simpa using hstop, song, hs, heq⟩

/-- Preservation of an invariant along the driver loop. -/
lemma foldl_preserve {P : DriverState → Prop} (cfg : DriverCfg)
    (hstep : ∀ st row, P st → P (processRow cfg st row)) :
    ∀ (rows : List Row) (st : DriverState), P st →
      P (rows.foldl (processRow cfg) st) := by
  intro rows
  induction rows with
  | nil => exact fun st h => h
  | cons r rs ih => exact fun st h => ih _ (hstep st r h)

/-- C8: dedup/resume invariant — for every run over any prior output and
row stream, the final song list is the prior list plus newly appended
records; every appended identifier was absent from the prior identifier
set; no identifier is appended twice; and the final identifier set is a
superset of the prior identifier set. -/
theorem c8_dedup_resume_invariant (cfg : DriverCfg) (prior : List Song)
    (rows : List Row) :
    ∃ new : List Song,
      (runDriver cfg prior rows).songs = prior ++ new ∧
      (∀ s ∈ new, s.id ∉ prior.map Song.id) ∧
      (new.map Song.id).Nodup ∧
      ∀ i ∈ prior.map Song.id,
        i ∈ (runDriver cfg prior rows).songs.map Song.id := by
  have hstep : ∀ st row,
      (∃ new, st.songs = prior ++ new ∧
        (∀ x, x ∈ st.existing_ids ↔
          (x ∈ prior.map Song.id ∨ x ∈ new.map Song.id)) ∧
        (new.map Song.id).Nodup ∧
        (∀ s ∈ new, s.id ∉ prior.map Song.id)) →
      (∃ new, (processRow cfg st row).songs = prior ++ new ∧
        (∀ x, x ∈ (processRow cfg st row).existing_ids ↔
          (x ∈ prior.map Song.id ∨ x ∈ new.map Song.id)) ∧
        (new.map Song.id).Nodup ∧
        (∀ s ∈ new, s.id ∉ prior.map Song.id)) := by
    intro st row hst
    obtain ⟨new, ha, hb, hc, hd⟩ := hst
    rcases processRow_cases cfg st row with ⟨h1, h2, -, -⟩ |
      ⟨-, song, hsid, heq⟩
    · exact ⟨new, by rw [h1, ha], fun x => by rw [h2]; exact hb x, hc, hd⟩
    · have hsongs : (processRow cfg st row).songs = st.songs ++ [song] := by
        rw [heq, tryAppend_songs]
      have hex : (processRow cfg st row).existing_ids =
          st.existing_ids ++ [song.id] := by
        rw [heq, tryAppend_existing]
      have hnotnew : song.id ∉ new.map Song.id :=
        fun hmem => hsid ((hb song.id).mpr (Or.inr hmem))
      have hnotprior : song.id ∉ prior.map Song.id :=
        fun hmem => hsid ((hb song.id).mpr (Or.inl hmem))
      refine ⟨new ++ [song], ?_, ?_, ?_, ?_⟩
      · rw [hsongs, ha, List.append_assoc]
      · intro x
        rw [hex]
        have hbx := hb x
        simp only [List.mem_append, List.map_append, List.map_cons,
          List.map_nil, List.mem_singleton] at *
        tauto
      · rw [List.map_append]
        refine List.nodup_append.mpr ⟨hc, List.nodup_singleton _, ?_⟩
        intro x hx hx2
        simp only [List.map_cons, List.map_nil, List.mem_singleton] at hx2
        subst hx2
        exact hnotnew hx
      · intro s hs
        rcases List.mem_append.mp hs with h | h
        · exact hd s h
        · simp only [List.mem_singleton] at h
          subst h
          exact hnotprior
  have hinit : ∃ new, (initState prior).songs = prior ++ new ∧
      (∀ x, x ∈ (initState prior).existing_ids ↔
        (x ∈ prior.map Song.id ∨ x ∈ new.map Song.id)) ∧
      (new.map Song.id).Nodup ∧
      (∀ s ∈ new, s.id ∉ prior.map Song.id) :=
    ⟨[], by simp [initState], fun x => by simp [initState], by simp, by simp⟩
  obtain ⟨new, ha, hb, hc, hd⟩ :=
    foldl_preserve cfg hstep rows (initState prior) hinit
  refine ⟨new, ha, hd, hc, fun i hi => ?_⟩
  have ha2 : (runDriver cfg prior rows).songs = prior ++ new := ha
  rw [ha2]
  simp only [List.map_append, List.mem_append]
  exact Or.inl hi

/-- C10: the `--max-songs` cap is checked against the `kept` counter
initialized to the number of carried-over prior records; hence whenever
the prior output already holds at least `max_songs` records, at most one
new record is appended before the loop stops, and `kept` always counts
prior plus new records. -/
theorem c10_max_songs_counts_prior (cfg : DriverCfg) (prior : List Song)
    (rows : List Row) (m : Nat) (hm : cfg.max_songs = some m)
    (hge : m ≤ prior.length) :
    ∃ new : List Song,
      (runDriver cfg prior rows).songs = prior ++ new ∧
      new.length ≤ 1 ∧
      (runDriver cfg prior rows).kept = prior.length + new.length := by
  have hstep : ∀ st row,
      (∃ new, st.songs = prior ++ new ∧
        st.kept = prior.length + new.length ∧ new.length ≤ 1 ∧
        (new = [] ∨ st.stopped = true)) →
      (∃ new, (processRow cfg st row).songs = prior ++ new ∧
        (processRow cfg st row).kept = prior.length + new.length ∧
        new.length ≤ 1 ∧
        (new = [] ∨ (processRow cfg st row).stopped = true)) := by
    intro st row hst
    obtain ⟨new, ha, hk, hl, hor⟩ := hst
    rcases processRow_cases cfg st row with ⟨h1, -, h3, h4⟩ |
      ⟨hstop, song, -, heq⟩
    · refine ⟨new, by rw [h1, ha], by rw [h3, hk], hl, ?_⟩
      rcases hor with h | h
      · exact Or.inl h
      · exact Or.inr (by rw [h4, h])
    · have hnil : new = [] := by
        rcases hor with h | h
        · exact h
        · rw [hstop] at h
          cases h
      subst hnil
      have ha2 : st.songs = prior := by simpa using ha
      have hk2 : st.kept = prior.length := by simpa using hk
      refine ⟨[song], ?_, ?_, by simp, Or.inr ?_⟩
      · rw [heq, tryAppend_songs]
        dsimp only
        rw [ha2]
      · rw [heq, tryAppend_kept]
        dsimp only
        rw [hk2]
        simp
      · rw [heq]
        refine tryAppend_stopped_of_cap cfg _ song m hm ?_
        show m ≤ st.kept + 1
        rw [hk2]
        omega
  have hinit : ∃ new, (initState prior).songs = prior ++ new ∧
      (initState prior).kept = prior.length + new.length ∧
      new.length ≤ 1 ∧
      (new = [] ∨ (initState prior).stopped = true) :=
    ⟨[], by simp [initState], by simp [initState], by simp, Or.inl rfl⟩
  obtain ⟨new, ha, hk, hl, -⟩ :=
    foldl_preserve cfg hstep rows (initState prior) hinit
  exact ⟨new, ha, hl, hk⟩

/-- Configuration for the C10 witness: cap 1, enrichment always resolving
real metadata. -/
def c10Cfg : DriverCfg :=
  ⟨0, some 1, true, fun _ => some (str "Song X", str "The Y")⟩

/-- Prior output for the C10 witness: one carried-over record. -/
def c10Prior : List Song := [⟨str "chrd-0", str "T", str "A", [], [], 1⟩]

/-- Row stream for the C10 witness: two processable rows. -/
def c10Rows : List Row :=
  [⟨some (str "1"), none, none, some (str "C G"), none, some (str "x")⟩,
   ⟨some (str "2"), none, none, some (str "C G"), none, some (str "x")⟩]

/-- Witness for C10: with one prior record and cap 1, at most one of the
two processable rows is appended. -/
theorem c10_max_songs_counts_prior_witness :
    ∃ new : List Song,
      (runDriver c10Cfg c10Prior c10Rows).songs = c10Prior ++ new ∧
      new.length ≤ 1 ∧
      (runDriver c10Cfg c10Prior c10Rows).kept =
        c10Prior.length + new.length :=
  c10_max_songs_counts_prior c10Cfg c10Prior c10Rows 1 rfl (by decide)

lemma isPre_self_append (p t : List Char) : isPre p (p ++ t) = true := by
  induction p with
  | nil => rfl
  | cons a as ih => simp [isPre, ih]

/-- C7 (amended): a row whose resolved title/artist are still the
synthetic placeholders is always caught by the driver's placeholder
filter (counted as no-metadata, no record emitted); but the filter is a
syntactic prefix/substring check, so it can also reject rows whose
enrichment resolved real metadata — e.g. a real artist containing
`"Unknown"` or starting with `"Artist "`, or a real title starting with
`"Chordonomicon Song"`. -/
theorem c7_placeholder_filter_catches_defaults (raw_id aid : List Char) :
    placeholder_check (default_title raw_id) (default_artist aid) = true := by
  unfold placeholder_check default_title
  have h1 : isPre (str "Chordonomicon Song")
      (str "Chordonomicon Song " ++ raw_id) = true := by
    have hsplit : str "Chordonomicon Song " ++ raw_id =
        str "Chordonomicon Song" ++ (' ' :: raw_id) := rfl
    rw [hsplit]
    exact isPre_self_append _ _
  rw [h1]
  simp

/-- Configuration for the C7 counterexample: enrichment resolves the real
artist "Unknown Mortal Orchestra". -/
def c7Cfg : DriverCfg :=
  ⟨0, none, true,
   fun _ => some (str "So Good at Being in Trouble",
                  str "Unknown Mortal Orchestra")⟩

/-- Row for the C7 counterexample: valid chords and a Spotify id. -/
def c7Row : Row :=
  ⟨some (str "1"), none, none, some (str "C G"), none, some (str "x")⟩

/-- Counterexample to C7 as stated: a row whose enrichment resolved a real
title and a real artist (neither equal to nor shaped like any synthetic
placeholder) is still rejected by the placeholder check — the driver
counts it as no-metadata and emits no record, because the artist contains
the substring `"Unknown"`. -/
theorem c7_counterexample :
    (processRow c7Cfg (initState []) c7Row).skipped_no_metadata = 1 ∧
    (processRow c7Cfg (initState []) c7Row).songs = [] ∧
    str "Unknown Mortal Orchestra" ≠ str "Unknown Artist" ∧
    isPre (str "Artist ") (str "Unknown Mortal Orchestra") = false ∧
    isPre (str "Chordonomicon Song")
      (str "So Good at Being in Trouble") = false := by
  refine ⟨by decide, by decide, by decide, by decide, by decide⟩

-- ------------ PRIOR-OUTPUT LOADING ------------

/-- JSON values as decoded by `json.load`. -/
inductive Json where
  | null : Json
  | bool (b : Bool) : Json
  | num (n : Int) : Json
  | jstr (s : List Char) : Json
  | arr (items : List Json) : Json
  | obj (fields : List (List Char × Json)) : Json

/-- Python dict lookup on a decoded object's fields. -/
def lookupField (k : List Char) : List (List Char × Json) → Option Json
  | [] => none
  | f :: fs => if f.1 = k then some f.2 else lookupField k fs

/-- `s["id"]`: `none` models the uncaught `KeyError` (object without the
key) or `TypeError` (not an object) this raises. -/
def extractId (k : List Char) : Json → Option Json
  | .obj fields => lookupField k fields
  | _ => none

/-- Python iteration `for s in v`: lists yield their items, dicts their
keys, strings their characters; other values raise `TypeError`
(modelled as `none`). -/
def pyIter : Json → Option (List Json)
  | .arr items => some items
  | .obj fields => some (fields.map fun f => Json.jstr f.1)
  | .jstr s => some (s.map fun c => Json.jstr [c])
  | _ => none

/-- Collect `s["id"]` for every element; `none` when any extraction
raises. -/
def mapIds : List Json → Option (List Json)
  | [] => some []
  | s :: ss =>
    match extractId (str "id") s with
    | none => none
    | some i => (mapIds ss).map (fun l => i :: l)

/-- The possible states of the prior output file at startup. -/
inductive PriorFile where
  | absent : PriorFile
  | syntaxBad : PriorFile
  | parsed (v : Json) : PriorFile

/-- The prior-output loading step of `main` in resume/default mode: an
absent file keeps the empty collection; a `json.JSONDecodeError` is
caught (warning, empty collection); any other failure while building
`{s["id"] for s in existing_songs}` is uncaught and aborts the run
(modelled as `none`). On success, returns the decoded collection and the
extracted identifiers. -/
def load_existing : PriorFile → Option (Json × List Json)
  | .absent => some (.arr [], [])
  | .syntaxBad => some (.arr [], [])
  | .parsed v =>
    match pyIter v with
    | none => none
    | some items =>
      match mapIds items with
      | none => none
      | some ids => some (v, ids)

lemma mapIds_isSome (items : List Json)
    (h : ∀ s ∈ items, (extractId (str "id") s).isSome = true) :
    (mapIds items).isSome = true := by
  induction items with
  | nil => rfl
  | cons s ss ih =>
    have hs := h s (List.mem_cons_self _ _)
    rw [mapIds]
    cases hx : extractId (str "id") s with
    | none =>
      rw [hx] at hs
      cases hs
    | some i =>
      cases hrec : mapIds ss with
      | none =>
        have hss := ih fun u hu => h u (List.mem_cons_of_mem _ hu)
        rw [hrec] at hss
        cases hss
      | some l => rfl

/-- C9 (amended): the prior-output load is non-fatal exactly when the
file is absent (empty collection) or syntactically malformed (empty
collection after a warning), and when the decoded contents are a
sequence of objects each bearing an `"id"` key; decoded contents that
violate that shape abort the run. -/
theorem c9_load_prior_cases :
    load_existing .absent = some (Json.arr [], []) ∧
    load_existing .syntaxBad = some (Json.arr [], []) ∧
    ∀ items : List Json,
      (∀ s ∈ items, (extractId (str "id") s).isSome = true) →
      (load_existing (.parsed (.arr items))).isSome = true := by
  refine ⟨rfl, rfl, ?_⟩
  intro items h
  rw [load_existing]
  show (match mapIds items with
    | none => none
    | some ids => some (Json.arr items, ids)).isSome = true
  cases hm : mapIds items with
  | none =>
    have := mapIds_isSome items h
    rw [hm] at this
    cases this
  | some ids => rfl

/-- Witness for C9 at a concrete well-formed prior file holding one
record with an `"id"` key. -/
theorem c9_load_prior_cases_witness :
    (load_existing (.parsed (Json.arr
      [Json.obj [(str "id", Json.jstr (str "chrd-1"))]]))).isSome = true :=
  c9_load_prior_cases.2.2
    [Json.obj [(str "id", Json.jstr (str "chrd-1"))]] (by decide)

/-- Counterexample to C9 as stated: a prior output file holding the valid
JSON value `42` (and likewise a valid JSON array whose element lacks an
`"id"` key) makes the load raise an uncaught error and abort the run, so
not every file content is non-fatal. -/
theorem c9_counterexample :
    (load_existing (.parsed (Json.num 42))).isNone = true ∧
    (load_existing (.parsed (Json.arr [Json.obj []]))).isNone = true := by
  refine ⟨rfl, rfl⟩
